import Mathlib

/-!
Shallow embedding of the local invocation scheduler in
`crates/cargo-lambda-watch/src/scheduler.rs`.

Hash maps (`HashMap<String, _>`) are embedded as association lists with
unique keys; `lookupAssoc`, `updateAssoc`, `eraseAssoc` and `insertAssoc`
mirror `HashMap::get`, in-place mutation of an occupied entry,
`HashMap::remove` and `HashMap::insert`.  The `VecDeque` backing a
`RequestQueue` is a `List` (`push_back` appends, `pop_front` takes the
head).  Stateful methods become state-passing functions returning the
value together with the updated state.
-/

namespace CargoLambdaWatch

/-- An invocation record.  The scheduler source only touches
`function_name`; the remaining attributes (`request_id`, the opaque
payload) are carried along as data, as described by the data model. -/
structure InvokeRequest where
  function_name : String
  request_id : String
  payload : Nat
deriving DecidableEq, Repr

/-- `HashMap::get` on the association-list representation. -/
def lookupAssoc {β : Type} : List (String × β) → String → Option β
  | [], _ => none
  | (k, v) :: rest, key => if k = key then some v else lookupAssoc rest key

/-- Replace the value stored under an existing key (in-place mutation of
an occupied map entry); no effect when the key is absent. -/
def updateAssoc {β : Type} : List (String × β) → String → β → List (String × β)
  | [], _, _ => []
  | (k, v) :: rest, key, val =>
      if k = key then (k, val) :: rest else (k, v) :: updateAssoc rest key val

/-- `HashMap::remove` on the association-list representation. -/
def eraseAssoc {β : Type} : List (String × β) → String → List (String × β)
  | [], _ => []
  | (k, v) :: rest, key => if k = key then rest else (k, v) :: eraseAssoc rest key

/-- `HashMap::insert`: overwrite the existing entry if present, otherwise
add a fresh one. -/
def insertAssoc {β : Type} (l : List (String × β)) (key : String) (val : β) :
    List (String × β) :=
  match lookupAssoc l key with
  | some _ => updateAssoc l key val
  | none => (key, val) :: l

/-- A per-function FIFO of pending invocations (`VecDeque<InvokeRequest>`). -/
abbrev RequestQueue := List InvokeRequest

/-- `RequestQueue::pop`: `pop_front`. -/
def RequestQueue.pop : RequestQueue → Option InvokeRequest × RequestQueue
  | [] => (none, [])
  | x :: xs => (some x, xs)

/-- `RequestQueue::push`: `push_back`. -/
def RequestQueue.push (q : RequestQueue) (req : InvokeRequest) : RequestQueue :=
  q ++ [req]

/-- `RequestCache`: the invocation registry, a fixed server base address
plus a map from function name to its queue. -/
structure RequestCache where
  server_addr : String
  inner : List (String × RequestQueue)
deriving DecidableEq, Repr

/-- `RequestCache::new`. -/
def RequestCache.new (server_addr : String) : RequestCache :=
  { server_addr := server_addr, inner := [] }

/-- `RequestCache::upsert`: on a vacant entry, build the runtime-API
address `{server_addr}/{name}`, create a queue holding the request,
insert it, and return the "new function" signal; on an occupied entry,
push onto the existing queue and return `none`. -/
def RequestCache.upsert (c : RequestCache) (req : InvokeRequest) :
    Option (String × String) × RequestCache :=
  let name := req.function_name
  match lookupAssoc c.inner name with
  | none =>
      let runtime_api := c.server_addr ++ "/" ++ name
      (some (name, runtime_api),
       { server_addr := c.server_addr,
         inner := (name, RequestQueue.push [] req) :: c.inner })
  | some q =>
      (none,
       { server_addr := c.server_addr,
         inner := updateAssoc c.inner name (RequestQueue.push q req) })

/-- `RequestCache::pop`: delegate to the named queue's pop when the name
exists, else return `none`; the map itself keeps the same entries, only
the named queue's contents change. -/
def RequestCache.pop (c : RequestCache) (function_name : String) :
    Option InvokeRequest × RequestCache :=
  match lookupAssoc c.inner function_name with
  | none => (none, c)
  | some q =>
      let p := RequestQueue.pop q
      (p.1,
       { server_addr := c.server_addr,
         inner := updateAssoc c.inner function_name p.2 })

/-- `RequestCache::clean`: remove the function's entry entirely. -/
def RequestCache.clean (c : RequestCache) (function_name : String) : RequestCache :=
  { server_addr := c.server_addr, inner := eraseAssoc c.inner function_name }

/-- Whether a function name is registered (its entry is present). -/
def RequestCache.contains (c : RequestCache) (function_name : String) : Bool :=
  (lookupAssoc c.inner function_name).isSome

/-- `ResponseCache`: request id to single-use completion handle; the
handle type (`oneshot::Sender<Response<Body>>`) is opaque here. -/
structure ResponseCache (σ : Type) where
  inner : List (String × σ)

/-- `ResponseCache::pop`: `HashMap::remove`, returning the removed handle. -/
def ResponseCache.pop {σ : Type} (c : ResponseCache σ) (req_id : String) :
    Option σ × ResponseCache σ :=
  match lookupAssoc c.inner req_id with
  | none => (none, c)
  | some v => (some v, { inner := eraseAssoc c.inner req_id })

/-- `ResponseCache::push`: `HashMap::insert`, silently overwriting. -/
def ResponseCache.push {σ : Type} (c : ResponseCache σ) (req_id : String)
    (resp_tx : σ) : ResponseCache σ :=
  { inner := insertAssoc c.inner req_id resp_tx }

/-- Modelled from the spec: `DEFAULT_PACKAGE_FUNCTION` is a reserved
default-package sentinel name defined in the `cargo-lambda-invoke` crate,
which is not part of this source tree; it is kept abstract as a
parameter.  `is_valid_bin_name` holds when the name is non-empty and
differs from the sentinel. -/
def is_valid_bin_name (default_package_function : String) (name : String) : Bool :=
  !name.isEmpty && name != default_package_function

/-- The `--bin` selector arguments added to the launch command by
`start_function`: present exactly when `is_valid_bin_name`. -/
def binArgs (default_package_function : String) (name : String) : List String :=
  if is_valid_bin_name default_package_function name then ["--bin", name] else []

/-- The optional binary name handed to the `function_metadata` lookup by
`start_function`: `Some(name)` exactly when `is_valid_bin_name`. -/
def metadataBinName (default_package_function : String) (name : String) :
    Option String :=
  if is_valid_bin_name default_package_function name then some name else none

/-- The ordered environment-assignment list composed by `start_function`
before `spawn`: `RUST_LOG`, the fixed version and memory-size markers,
then the metadata entries, then the runtime API address and function
name.  Later assignments to the same variable override earlier ones. -/
def buildEnv (rust_log : String) (metadata : List (String × String))
    (runtime_api : String) (name : String) : List (String × String) :=
  [("RUST_LOG", rust_log),
   ("AWS_LAMBDA_FUNCTION_VERSION", "1"),
   ("AWS_LAMBDA_FUNCTION_MEMORY_SIZE", "4096")]
    ++ metadata
    ++ [("AWS_LAMBDA_RUNTIME_API", runtime_api),
        ("AWS_LAMBDA_FUNCTION_NAME", name)]

/-- The effective value of a variable in an ordered assignment list:
the last assignment wins (`Command::env` semantics). -/
def lookupLast (l : List (String × String)) (k : String) : Option String :=
  lookupAssoc l.reverse k

/-- Outcome of the supervision race at the end of `start_function`:
which branch of the `select!` won determines whether the child was
forcibly killed and which death notifications were sent on `gc_tx`. -/
structure SupervisorOutcome where
  killed : Bool
  notifications : List String
deriving DecidableEq, Repr

/-- The two-way race in `start_function`: if the child's own exit wins,
send exactly one death notification carrying the function name; if the
shutdown signal wins, kill the child and send nothing. -/
def superviseChild (child_exit_first : Bool) (name : String) : SupervisorOutcome :=
  if child_exit_first then { killed := false, notifications := [name] }
  else { killed := true, notifications := [] }

/-- The scheduler loop's handling of death notifications: each one
received on the gc channel triggers `RequestCache::clean`. -/
def processNotifications (c : RequestCache) (ns : List String) : RequestCache :=
  ns.foldl RequestCache.clean c

/-- Sequentially submit a list of invocations through `upsert`,
keeping only the final registry state. -/
def upsertAll (c : RequestCache) (reqs : List InvokeRequest) : RequestCache :=
  reqs.foldl (fun s r => (s.upsert r).2) c

/-- Sequentially submit a list of invocations through `upsert`,
collecting each call's signal. -/
def upsertTrace (c : RequestCache) : List InvokeRequest → List (Option (String × String))
  | [] => []
  | r :: rest => (c.upsert r).1 :: upsertTrace (c.upsert r).2 rest

/-- Pop from the named queue `n` times, collecting the returned
invocations in order; stops early if a pop comes back empty. -/
def popList (function_name : String) : RequestCache → Nat → List InvokeRequest × RequestCache
  | c, 0 => ([], c)
  | c, n + 1 =>
      let p := c.pop function_name
      match p.1 with
      | none => ([], p.2)
      | some r =>
          let rest := popList function_name p.2 n
          (r :: rest.1, rest.2)

/-! ### Association-list lemmas -/

theorem lookupAssoc_eq_none_of_not_mem {β : Type} {l : List (String × β)} {k : String}
    (h : k ∉ l.map Prod.fst) : lookupAssoc l k = none := by
  induction l with
  | nil => rfl
  | cons p rest ih =>
    obtain ⟨k', v'⟩ := p
    simp only [List.map_cons, List.mem_cons] at h
    push_neg at h
    simp only [lookupAssoc]
    rw [if_neg (fun hk => h.1 hk.symm)]
    exact ih h.2

theorem lookupAssoc_updateAssoc_self {β : Type} (l : List (String × β)) (k : String) (v : β) :
    lookupAssoc (updateAssoc l k v) k = (lookupAssoc l k).map (fun _ => v) := by
  induction l with
  | nil => simp [lookupAssoc, updateAssoc]
  | cons p rest ih =>
    obtain ⟨k', v'⟩ := p
    by_cases h : k' = k <;> simp [lookupAssoc, updateAssoc, h, ih]

theorem lookupAssoc_updateAssoc_ne {β : Type} (l : List (String × β)) (k n : String) (v : β)
    (h : n ≠ k) : lookupAssoc (updateAssoc l k v) n = lookupAssoc l n := by
  induction l with
  | nil => simp [lookupAssoc, updateAssoc]
  | cons p rest ih =>
    obtain ⟨k', v'⟩ := p
    by_cases hk : k' = k
    · subst hk
      have hn : k' ≠ n := Ne.symm h
      simp [lookupAssoc, updateAssoc, hn]
    · by_cases hn : k' = n
      · subst hn
        simp [lookupAssoc, updateAssoc, h]
      · simp [lookupAssoc, updateAssoc, hk, hn, ih]

theorem isSome_lookupAssoc_updateAssoc {β : Type} (l : List (String × β)) (k n : String)
    (v : β) : (lookupAssoc (updateAssoc l k v) n).isSome = (lookupAssoc l n).isSome := by
  by_cases h : n = k
  · subst h
    rw [lookupAssoc_updateAssoc_self]
    cases lookupAssoc l n <;> rfl
  · rw [lookupAssoc_updateAssoc_ne l k n v h]

theorem lookupAssoc_eraseAssoc_self {β : Type} {l : List (String × β)} {k : String}
    (h : (l.map Prod.fst).Nodup) : lookupAssoc (eraseAssoc l k) k = none := by
  induction l with
  | nil => rfl
  | cons p rest ih =>
    obtain ⟨k', v'⟩ := p
    simp only [List.map_cons, List.nodup_cons] at h
    by_cases hk : k' = k
    · subst hk
      simp only [eraseAssoc, if_pos rfl]
      exact lookupAssoc_eq_none_of_not_mem h.1
    · simp only [eraseAssoc, if_neg hk, lookupAssoc]
      exact ih h.2

theorem lookupAssoc_insertAssoc_self {β : Type} (l : List (String × β)) (k : String)
    (v : β) : lookupAssoc (insertAssoc l k v) k = some v := by
  unfold insertAssoc
  cases hl : lookupAssoc l k with
  | none => simp [lookupAssoc]
  | some w => rw [lookupAssoc_updateAssoc_self, hl]; rfl

theorem lookupAssoc_insertAssoc_ne {β : Type} (l : List (String × β)) (k n : String)
    (v : β) (h : n ≠ k) : lookupAssoc (insertAssoc l k v) n = lookupAssoc l n := by
  unfold insertAssoc
  cases hl : lookupAssoc l k with
  | none =>
      simp only [lookupAssoc]
      rw [if_neg (Ne.symm h)]
  | some w => exact lookupAssoc_updateAssoc_ne l k n v h

theorem lookupAssoc_append {β : Type} (l₁ l₂ : List (String × β)) (k : String) :
    lookupAssoc (l₁ ++ l₂) k =
      match lookupAssoc l₁ k with
      | some v => some v
      | none => lookupAssoc l₂ k := by
  induction l₁ with
  | nil => simp [lookupAssoc]
  | cons p rest ih =>
    obtain ⟨k', v'⟩ := p
    by_cases h : k' = k <;> simp [lookupAssoc, h, ih]

/-! ### Registry-level lemmas -/

theorem upsert_vacant {c : RequestCache} {req : InvokeRequest}
    (h : lookupAssoc c.inner req.function_name = none) :
    (c.upsert req).1 = some (req.function_name, c.server_addr ++ "/" ++ req.function_name)
    ∧ lookupAssoc (c.upsert req).2.inner req.function_name = some [req]
    ∧ (c.upsert req).2.server_addr = c.server_addr := by
  simp [RequestCache.upsert, h, lookupAssoc, RequestQueue.push]

theorem upsert_occupied {c : RequestCache} {req : InvokeRequest} {fn : String}
    {q : RequestQueue} (hname : req.function_name = fn)
    (h : lookupAssoc c.inner fn = some q) :
    (c.upsert req).1 = none
    ∧ lookupAssoc (c.upsert req).2.inner fn = some (q ++ [req])
    ∧ (c.upsert req).2.server_addr = c.server_addr := by
  subst hname
  simp [RequestCache.upsert, h, RequestQueue.push, lookupAssoc_updateAssoc_self]

theorem pop_absent {c : RequestCache} {fn : String}
    (h : lookupAssoc c.inner fn = none) : c.pop fn = (none, c) := by
  simp [RequestCache.pop, h]

theorem pop_cons {c : RequestCache} {fn : String} {x : InvokeRequest}
    {xs : RequestQueue} (h : lookupAssoc c.inner fn = some (x :: xs)) :
    (c.pop fn).1 = some x
    ∧ lookupAssoc (c.pop fn).2.inner fn = some xs
    ∧ (c.pop fn).2.server_addr = c.server_addr := by
  simp [RequestCache.pop, h, RequestQueue.pop, lookupAssoc_updateAssoc_self]

theorem contains_pop (c : RequestCache) (fn n : String) :
    ((c.pop fn).2).contains n = c.contains n := by
  cases h : lookupAssoc c.inner fn with
  | none => simp [RequestCache.pop, h]
  | some q =>
      simp [RequestCache.pop, h, RequestCache.contains, isSome_lookupAssoc_updateAssoc]

theorem upsertAll_cons (c : RequestCache) (r : InvokeRequest)
    (rest : List InvokeRequest) :
    upsertAll c (r :: rest) = upsertAll (c.upsert r).2 rest := rfl

theorem lookupAssoc_upsertAll {fn : String} :
    ∀ (reqs : List InvokeRequest) (c : RequestCache) (q : RequestQueue),
      lookupAssoc c.inner fn = some q → (∀ r ∈ reqs, r.function_name = fn) →
      lookupAssoc (upsertAll c reqs).inner fn = some (q ++ reqs)
      ∧ (upsertAll c reqs).server_addr = c.server_addr := by
  intro reqs
  induction reqs with
  | nil =>
      intro c q h _
      exact ⟨by simpa [upsertAll] using h, rfl⟩
  | cons r rest ih =>
      intro c q h hall
      have hr := upsert_occupied (hall r (by simp)) h
      have hrec := ih (c.upsert r).2 (q ++ [r]) hr.2.1 (fun x hx => hall x (by simp [hx]))
      refine ⟨?_, ?_⟩
      · rw [upsertAll_cons, hrec.1]
        simp
      · rw [upsertAll_cons, hrec.2, hr.2.2]

theorem upsertTrace_occupied {fn : String} :
    ∀ (reqs : List InvokeRequest) (c : RequestCache),
      c.contains fn = true → (∀ r ∈ reqs, r.function_name = fn) →
      upsertTrace c reqs = List.replicate reqs.length none := by
  intro reqs
  induction reqs with
  | nil => intro c _ _; rfl
  | cons r rest ih =>
      intro c hc hall
      obtain ⟨q, hq⟩ : ∃ q, lookupAssoc c.inner fn = some q := by
        simpa [RequestCache.contains, Option.isSome_iff_exists] using hc
      have hr := upsert_occupied (hall r (by simp)) hq
      have hrec := ih (c.upsert r).2
        (by simp [RequestCache.contains, hr.2.1])
        (fun x hx => hall x (by simp [hx]))
      simp [upsertTrace, hr.1, hrec, List.replicate]

theorem popList_of_lookup {fn : String} :
    ∀ (q : RequestQueue) (c : RequestCache),
      lookupAssoc c.inner fn = some q →
      (popList fn c q.length).1 = q
      ∧ lookupAssoc (popList fn c q.length).2.inner fn = some [] := by
  intro q
  induction q with
  | nil =>
      intro c h
      exact ⟨rfl, by simpa [popList] using h⟩
  | cons x xs ih =>
      intro c h
      have hp := pop_cons h
      have hrec := ih (c.pop fn).2 hp.2.1
      refine ⟨?_, ?_⟩ <;>
        simp only [List.length_cons, popList, hp.1] <;>
        simp [hrec.1, hrec.2]

theorem lookup_eq_none_of_contains_false {c : RequestCache} {fn : String}
    (h : c.contains fn = false) : lookupAssoc c.inner fn = none := by
  cases hl : lookupAssoc c.inner fn with
  | none => rfl
  | some q => simp [RequestCache.contains, hl] at h

theorem lookupLast_buildEnv (rust_log : String) (metadata : List (String × String))
    (runtime_api name : String) :
    lookupLast (buildEnv rust_log metadata runtime_api name) "AWS_LAMBDA_RUNTIME_API"
      = some runtime_api
    ∧ lookupLast (buildEnv rust_log metadata runtime_api name) "AWS_LAMBDA_FUNCTION_NAME"
      = some name
    ∧ lookupLast (buildEnv rust_log metadata runtime_api name) "RUST_LOG"
      = some ((lookupLast metadata "RUST_LOG").getD rust_log)
    ∧ lookupLast (buildEnv rust_log metadata runtime_api name) "AWS_LAMBDA_FUNCTION_VERSION"
      = some ((lookupLast metadata "AWS_LAMBDA_FUNCTION_VERSION").getD "1")
    ∧ lookupLast (buildEnv rust_log metadata runtime_api name) "AWS_LAMBDA_FUNCTION_MEMORY_SIZE"
      = some ((lookupLast metadata "AWS_LAMBDA_FUNCTION_MEMORY_SIZE").getD "4096") := by
  refine ⟨?_, ?_, ?_, ?_, ?_⟩ <;>
    · simp only [buildEnv, lookupLast, List.reverse_append, List.reverse_cons,
        List.reverse_nil, List.nil_append, List.cons_append, List.append_assoc,
        lookupAssoc_append, lookupAssoc]
      cases lookupAssoc metadata.reverse "RUST_LOG" <;>
        cases lookupAssoc metadata.reverse "AWS_LAMBDA_FUNCTION_VERSION" <;>
        cases lookupAssoc metadata.reverse "AWS_LAMBDA_FUNCTION_MEMORY_SIZE" <;>
        simp

/-! ### Claims -/

/-- C1: `upsert` returns the "new function" signal if and only if the
invocation's function name is absent from the registry at the start of
the call, and after the call the name is present; hence for any sequence
of upserts for a previously-unseen name, exactly the first returns the
signal (carrying the name and derived runtime-API address) and all later
calls return no action, so at most one process is started per name. -/
theorem upsert_spawn_at_most_once :
    (∀ (c : RequestCache) (req : InvokeRequest),
      (c.upsert req).1.isSome = !c.contains req.function_name
      ∧ (c.upsert req).2.contains req.function_name = true)
    ∧ ∀ (c : RequestCache) (fn : String) (r : InvokeRequest)
        (rest : List InvokeRequest),
        c.contains fn = false → r.function_name = fn →
        (∀ x ∈ rest, x.function_name = fn) →
        upsertTrace c (r :: rest)
          = some (fn, c.server_addr ++ "/" ++ fn) :: List.replicate rest.length none := by
  constructor
  · intro c req
    cases h : lookupAssoc c.inner req.function_name with
    | none =>
        have hv := upsert_vacant h
        exact ⟨by rw [hv.1]; simp [RequestCache.contains, h],
          by simp [RequestCache.contains, hv.2.1]⟩
    | some q =>
        have ho := upsert_occupied rfl h
        exact ⟨by rw [ho.1]; simp [RequestCache.contains, h],
          by simp [RequestCache.contains, ho.2.1]⟩
  · intro c fn r rest hc hr hall
    subst hr
    have hv := upsert_vacant (lookup_eq_none_of_contains_false hc)
    have htail := upsertTrace_occupied rest (c.upsert r).2
      (by simp [RequestCache.contains, hv.2.1]) hall
    simp [upsertTrace, hv.1, htail]

theorem upsert_spawn_at_most_once_witness :
    upsertTrace (RequestCache.new "http://[::]:9000/.rt")
        [⟨"orders", "r1", 0⟩, ⟨"orders", "r2", 1⟩, ⟨"orders", "r3", 2⟩]
      = [some ("orders", "http://[::]:9000/.rt/orders"), none, none] := by
  have h := upsert_spawn_at_most_once.2 (RequestCache.new "http://[::]:9000/.rt")
    "orders" ⟨"orders", "r1", 0⟩ [⟨"orders", "r2", 1⟩, ⟨"orders", "r3", 2⟩]
    rfl rfl (by decide)
  rw [h]
  rfl

/-- C2: per function name, successive pops return the submitted
invocations in exact FIFO submission order, then empty; a pop for a name
with no queue returns empty; pop is a total state-transition function,
so it answers immediately rather than awaiting a future push. -/
theorem fifo_pop_order :
    (∀ (c : RequestCache) (fn : String) (reqs : List InvokeRequest),
      c.contains fn = false → (∀ r ∈ reqs, r.function_name = fn) →
      (popList fn (upsertAll c reqs) reqs.length).1 = reqs
      ∧ ((popList fn (upsertAll c reqs) reqs.length).2.pop fn).1 = none)
    ∧ ∀ (c : RequestCache) (fn : String),
        c.contains fn = false → (c.pop fn).1 = none := by
  have hempty : ∀ (c : RequestCache) (fn : String),
      lookupAssoc c.inner fn = some [] → (c.pop fn).1 = none := by
    intro c fn h
    simp [RequestCache.pop, h, RequestQueue.pop]
  constructor
  · intro c fn reqs hc hall
    cases reqs with
    | nil =>
        refine ⟨rfl, ?_⟩
        show (c.pop fn).1 = none
        rw [pop_absent (lookup_eq_none_of_contains_false hc)]
    | cons r rest =>
        have hfn : r.function_name = fn := hall r (by simp)
        subst hfn
        have hv := upsert_vacant (lookup_eq_none_of_contains_false hc)
        have hup := lookupAssoc_upsertAll rest (c.upsert r).2 [r] hv.2.1
          (fun x hx => hall x (by simp [hx]))
        rw [← upsertAll_cons] at hup
        have hp := popList_of_lookup (r :: rest) (upsertAll c (r :: rest))
          (by simpa using hup.1)
        exact ⟨hp.1, hempty _ r.function_name hp.2⟩
  · intro c fn hc
    rw [pop_absent (lookup_eq_none_of_contains_false hc)]

theorem fifo_pop_order_witness :
    (popList "orders"
        (upsertAll (RequestCache.new "base")
          [⟨"orders", "r1", 0⟩, ⟨"orders", "r2", 1⟩, ⟨"orders", "r3", 2⟩]) 3).1
      = [⟨"orders", "r1", 0⟩, ⟨"orders", "r2", 1⟩, ⟨"orders", "r3", 2⟩]
    ∧ ((popList "orders"
        (upsertAll (RequestCache.new "base")
          [⟨"orders", "r1", 0⟩, ⟨"orders", "r2", 1⟩, ⟨"orders", "r3", 2⟩]) 3).2.pop
        "orders").1 = none :=
  fifo_pop_order.1 (RequestCache.new "base") "orders"
    [⟨"orders", "r1", 0⟩, ⟨"orders", "r2", 1⟩, ⟨"orders", "r3", 2⟩] rfl (by decide)

/-- C3: in the spawned environment, the runtime-API variable and the
function-name variable always hold the scheduler-computed values (they
are applied after the metadata layer and cannot be shadowed), while
`RUST_LOG`, the version marker `1` and the memory-size marker `4096`
are applied before the metadata layer, so a metadata entry for one of
those keys overrides it. -/
theorem env_precedence (rust_log : String) (metadata : List (String × String))
    (runtime_api name : String) :
    lookupLast (buildEnv rust_log metadata runtime_api name) "AWS_LAMBDA_RUNTIME_API"
      = some runtime_api
    ∧ lookupLast (buildEnv rust_log metadata runtime_api name) "AWS_LAMBDA_FUNCTION_NAME"
      = some name
    ∧ lookupLast (buildEnv rust_log metadata runtime_api name) "RUST_LOG"
      = some ((lookupLast metadata "RUST_LOG").getD rust_log)
    ∧ lookupLast (buildEnv rust_log metadata runtime_api name) "AWS_LAMBDA_FUNCTION_VERSION"
      = some ((lookupLast metadata "AWS_LAMBDA_FUNCTION_VERSION").getD "1")
    ∧ lookupLast (buildEnv rust_log metadata runtime_api name) "AWS_LAMBDA_FUNCTION_MEMORY_SIZE"
      = some ((lookupLast metadata "AWS_LAMBDA_FUNCTION_MEMORY_SIZE").getD "4096") :=
  lookupLast_buildEnv rust_log metadata runtime_api name

/-- C4: popping the response registry removes and returns the stored
handle atomically: a second pop of the same id finds nothing and leaves
the state unchanged, and a pop of an id that was never pushed returns
empty and is a no-op. -/
theorem response_pop_atomic (σ : Type) (c : ResponseCache σ) (id : String)
    (h : (c.inner.map Prod.fst).Nodup) :
    (lookupAssoc c.inner id = none → c.pop id = (none, c))
    ∧ (((c.pop id).2).pop id).1 = none
    ∧ (((c.pop id).2).pop id).2 = (c.pop id).2 := by
  have key : ((c.pop id).2).pop id = (none, (c.pop id).2) := by
    cases hl : lookupAssoc c.inner id with
    | none => simp [ResponseCache.pop, hl]
    | some v =>
        have he := lookupAssoc_eraseAssoc_self (l := c.inner) (k := id) h
        simp [ResponseCache.pop, hl, he]
  exact ⟨fun hn => by simp [ResponseCache.pop, hn], by rw [key], by rw [key]⟩

theorem response_pop_atomic_witness :
    (lookupAssoc (ResponseCache.inner (σ := Nat) ⟨[("a", 5)]⟩) "b" = none →
      ResponseCache.pop (σ := Nat) ⟨[("a", 5)]⟩ "b" = (none, ⟨[("a", 5)]⟩))
    ∧ (((ResponseCache.pop (σ := Nat) ⟨[("a", 5)]⟩ "a").2).pop "a").1 = none
    ∧ (((ResponseCache.pop (σ := Nat) ⟨[("a", 5)]⟩ "a").2).pop "a").2
      = (ResponseCache.pop (σ := Nat) ⟨[("a", 5)]⟩ "a").2 := by
  refine ⟨fun hn => (response_pop_atomic Nat ⟨[("a", 5)]⟩ "b" (by decide)).1 hn,
    (response_pop_atomic Nat ⟨[("a", 5)]⟩ "a" (by decide)).2.1,
    (response_pop_atomic Nat ⟨[("a", 5)]⟩ "a" (by decide)).2.2⟩

/-- C5: for a registered name, `clean` followed by `upsert` behaves as a
first-ever insertion: the upsert returns the same "new function" signal,
with the same derived address, that an upsert on a fresh registry with
the same server base address would return. -/
theorem clean_then_upsert_fresh (c : RequestCache) (req : InvokeRequest)
    (h : (c.inner.map Prod.fst).Nodup) :
    ((c.clean req.function_name).upsert req).1
      = some (req.function_name, c.server_addr ++ "/" ++ req.function_name)
    ∧ ((c.clean req.function_name).upsert req).1
      = ((RequestCache.new c.server_addr).upsert req).1 := by
  have hn : lookupAssoc (c.clean req.function_name).inner req.function_name = none :=
    lookupAssoc_eraseAssoc_self (l := c.inner) (k := req.function_name) h
  have hv := upsert_vacant hn
  have hw := @upsert_vacant (RequestCache.new c.server_addr) req rfl
  exact ⟨hv.1, by rw [hv.1, hw.1]; rfl⟩

theorem clean_then_upsert_fresh_witness :
    ((RequestCache.clean ⟨"base", [("f", [⟨"f", "r0", 0⟩])]⟩ "f").upsert
        ⟨"f", "r1", 1⟩).1 = some ("f", "base/f")
    ∧ ((RequestCache.clean ⟨"base", [("f", [⟨"f", "r0", 0⟩])]⟩ "f").upsert
        ⟨"f", "r1", 1⟩).1
      = ((RequestCache.new "base").upsert ⟨"f", "r1", 1⟩).1 :=
  clean_then_upsert_fresh ⟨"base", [("f", [⟨"f", "r0", 0⟩])]⟩ ⟨"f", "r1", 1⟩ (by decide)

/-- C6: in the supervision race of `start_function`, a natural child
exit emits exactly one death notification carrying the function name and
does not kill the child, while a shutdown win kills the child and emits
no notification, so the scheduler's notification-driven `clean` is never
triggered from the shutdown path. -/
theorem shutdown_terminates_without_notification (name : String) (c : RequestCache) :
    (superviseChild true name).notifications = [name]
    ∧ (superviseChild true name).killed = false
    ∧ (superviseChild false name).killed = true
    ∧ (superviseChild false name).notifications = []
    ∧ processNotifications c (superviseChild false name).notifications = c :=
  ⟨rfl, rfl, rfl, rfl, rfl⟩

/-- C7: the runtime-API address returned by `upsert` for a new function
is the fixed server base address, then `/`, then the function name, and
that same address is the value the spawned environment holds under the
runtime-API variable. -/
theorem runtime_api_address_format (c : RequestCache) (req : InvokeRequest)
    (rust_log : String) (metadata : List (String × String))
    (h : c.contains req.function_name = false) :
    (c.upsert req).1
      = some (req.function_name, c.server_addr ++ "/" ++ req.function_name)
    ∧ lookupLast
        (buildEnv rust_log metadata (c.server_addr ++ "/" ++ req.function_name)
          req.function_name)
        "AWS_LAMBDA_RUNTIME_API"
      = some (c.server_addr ++ "/" ++ req.function_name) :=
  ⟨(upsert_vacant (lookup_eq_none_of_contains_false h)).1,
   (lookupLast_buildEnv rust_log metadata
     (c.server_addr ++ "/" ++ req.function_name) req.function_name).1⟩

theorem runtime_api_address_format_witness :
    ((RequestCache.new "base").upsert ⟨"f", "r1", 0⟩).1 = some ("f", "base/f")
    ∧ lookupLast (buildEnv "" [] ("base" ++ "/" ++ "f") "f") "AWS_LAMBDA_RUNTIME_API"
      = some ("base" ++ "/" ++ "f") :=
  runtime_api_address_format (RequestCache.new "base") ⟨"f", "r1", 0⟩ "" [] rfl

/-- C8: the launch command passes the function name as the explicit
`--bin` selector and hands it to the metadata lookup exactly when the
name is non-empty and differs from the reserved default-package sentinel
name; otherwise no selector is passed and the metadata lookup gets no
binary name. -/
theorem bin_selector (default_package_function name : String) :
    ((name ≠ "" ∧ name ≠ default_package_function) →
      binArgs default_package_function name = ["--bin", name]
      ∧ metadataBinName default_package_function name = some name)
    ∧ ((name = "" ∨ name = default_package_function) →
      binArgs default_package_function name = []
      ∧ metadataBinName default_package_function name = none)
    ∧ (is_valid_bin_name default_package_function name = true
        ↔ (name ≠ "" ∧ name ≠ default_package_function)) := by
  have hiff : is_valid_bin_name default_package_function name = true
      ↔ (name ≠ "" ∧ name ≠ default_package_function) := by
    rw [is_valid_bin_name, Bool.and_eq_true, Bool.not_eq_true', bne_iff_ne]
    constructor
    · intro hv
      refine ⟨fun he => ?_, hv.2⟩
      rw [he] at hv
      exact absurd hv.1 (by decide)
    · intro hv
      refine ⟨?_, hv.2⟩
      cases he : name.isEmpty
      · rfl
      · exact absurd ((String.isEmpty_iff name).mp he) hv.1
  refine ⟨?_, ?_, hiff⟩
  · intro hv
    rw [binArgs, metadataBinName, if_pos (hiff.mpr hv), if_pos (hiff.mpr hv)]
    exact ⟨rfl, rfl⟩
  · intro hv
    have hfalse : is_valid_bin_name default_package_function name = false := by
      cases hb : is_valid_bin_name default_package_function name
      · rfl
      · obtain ⟨h1, h2⟩ := hiff.mp hb
        cases hv with
        | inl he => exact absurd he h1
        | inr he => exact absurd he h2
    rw [binArgs, metadataBinName, if_neg (by simp [hfalse]), if_neg (by simp [hfalse])]
    exact ⟨rfl, rfl⟩

theorem bin_selector_witness :
    (binArgs "_" "orders" = ["--bin", "orders"]
      ∧ metadataBinName "_" "orders" = some "orders")
    ∧ (binArgs "_" "_" = [] ∧ metadataBinName "_" "_" = none) :=
  ⟨(bin_selector "_" "orders").1 (by decide),
   (bin_selector "_" "_").2.1 (Or.inr rfl)⟩

/-- C9: pushing a completion handle stores it under the request id,
silently replacing any handle already stored under that id (the
operation is total and never errors), and leaves every other id's entry
unchanged. -/
theorem response_push_overwrite (σ : Type) (c : ResponseCache σ) (id : String)
    (v : σ) :
    lookupAssoc ((c.push id v).inner) id = some v
    ∧ ∀ k, k ≠ id → lookupAssoc ((c.push id v).inner) k = lookupAssoc c.inner k :=
  ⟨lookupAssoc_insertAssoc_self c.inner id v,
   fun k hk => lookupAssoc_insertAssoc_ne c.inner id k v hk⟩

theorem response_push_overwrite_witness :
    lookupAssoc ((ResponseCache.push (σ := Nat) ⟨[("a", 1)]⟩ "a" 2).inner) "a" = some 2
    ∧ lookupAssoc ((ResponseCache.push (σ := Nat) ⟨[("b", 7)]⟩ "a" 2).inner) "b"
      = lookupAssoc (ResponseCache.inner (σ := Nat) ⟨[("b", 7)]⟩) "b" :=
  ⟨(response_push_overwrite Nat ⟨[("a", 1)]⟩ "a" 2).1,
   (response_push_overwrite Nat ⟨[("b", 7)]⟩ "a" 2).2 "b" (by decide)⟩

/-- C10: popping the invocation registry never changes which function
names are registered — no entry is inserted or removed, even when the
last pending invocation is drained — so any name registered before a pop
is still classified "already running" by a subsequent upsert. -/
theorem pop_preserves_registration (c : RequestCache) (fn : String) :
    (∀ n, ((c.pop fn).2).contains n = c.contains n)
    ∧ ∀ req : InvokeRequest, c.contains req.function_name = true →
        (((c.pop fn).2).upsert req).1 = none := by
  refine ⟨fun n => contains_pop c fn n, ?_⟩
  intro req hc
  have h2 : ((c.pop fn).2).contains req.function_name = true := by
    rw [contains_pop]; exact hc
  obtain ⟨q, hq⟩ : ∃ q, lookupAssoc ((c.pop fn).2).inner req.function_name = some q := by
    simpa [RequestCache.contains, Option.isSome_iff_exists] using h2
  exact (upsert_occupied rfl hq).1

theorem pop_preserves_registration_witness :
    ((RequestCache.pop ⟨"base", [("f", [⟨"f", "r0", 0⟩])]⟩ "f").2).contains "f"
      = RequestCache.contains ⟨"base", [("f", [⟨"f", "r0", 0⟩])]⟩ "f"
    ∧ (((RequestCache.pop ⟨"base", [("f", [⟨"f", "r0", 0⟩])]⟩ "f").2).upsert
        ⟨"f", "r1", 1⟩).1 = none :=
  ⟨(pop_preserves_registration ⟨"base", [("f", [⟨"f", "r0", 0⟩])]⟩ "f").1 "f",
   (pop_preserves_registration ⟨"base", [("f", [⟨"f", "r0", 0⟩])]⟩ "f").2
     ⟨"f", "r1", 1⟩ (by decide)⟩

end CargoLambdaWatch
